import Mathlib

/-!
Verification of `scripts/convert_gml_to_json.py` (GionCraft).

The script converts CityGML building solids into a JSON mesh.  This file is a
shallow embedding of its pipeline:

* Python `float` values are modelled by `PyFloat`: `nan`, the two infinities,
  and finite values.  A finite value is carried as an exact unnormalized
  fraction (`PyRat`: integer numerator, positive natural denominator) rather
  than a rounded binary64 number; every claim below is independent of binary64
  rounding, and exact fractions keep all definitions kernel-computable.
* Python float comparison semantics (`nan` compares unequal to everything,
  including itself) are modelled by `pyEq` / `pyLt` / `pyLe`.
* XML documents are modelled by the `Node` tree; `findall` is the
  document-order descendant search of `ElementTree.findall(".//tag")` and
  `find1` is `Element.find("tag")` (first direct child).
* Fallible Python code (a `float(...)` call raising `ValueError`, tuple
  unpacking of a wrong-sized tuple, the `SystemExit` for empty input) is
  modelled with `Except RunError`.
-/

/-- An exact rational with unnormalized representation: the value of a finite
Python float literal.  The denominator is kept positive. -/
structure PyRat where
  num : Int
  den : Nat
  dpos : 0 < den

instance : DecidableEq PyRat := fun a b =>
  if h : a.num = b.num ∧ a.den = b.den then
    isTrue (by cases a; cases b; obtain ⟨h1, h2⟩ := h; cases h1; cases h2; rfl)
  else
    isFalse (by intro he; cases he; exact h ⟨rfl, rfl⟩)

/-- Helper to write a rational literal with an evident positive denominator:
`fr n d` is the fraction `n / (d + 1)`. -/
def fr (n : Int) (d : Nat) : PyRat := ⟨n, d + 1, Nat.succ_pos d⟩

/-- The rational value of a `PyRat`, used only in proofs. -/
def PyRat.toQ (x : PyRat) : ℚ := (x.num : ℚ) / (x.den : ℚ)

/-- Exact addition of fractions. -/
def PyRat.add (x y : PyRat) : PyRat :=
  ⟨x.num * y.den + y.num * x.den, x.den * y.den, Nat.mul_pos x.dpos y.dpos⟩

/-- Exact subtraction of fractions. -/
def PyRat.sub (x y : PyRat) : PyRat :=
  ⟨x.num * y.den - y.num * x.den, x.den * y.den, Nat.mul_pos x.dpos y.dpos⟩

/-- Exact multiplication of fractions. -/
def PyRat.mul (x y : PyRat) : PyRat :=
  ⟨x.num * y.num, x.den * y.den, Nat.mul_pos x.dpos y.dpos⟩

/-- Exact negation of a fraction. -/
def PyRat.neg (x : PyRat) : PyRat := ⟨-x.num, x.den, x.dpos⟩

/-- Exact division of a fraction by a positive natural number. -/
def PyRat.divNat (x : PyRat) (n : Nat) (h : 0 < n) : PyRat :=
  ⟨x.num, x.den * n, Nat.mul_pos x.dpos h⟩

/-- Value equality of fractions (cross multiplication). -/
def PyRat.eq (x y : PyRat) : Bool := decide (x.num * (y.den : Int) = y.num * (x.den : Int))

/-- Value order of fractions (cross multiplication with positive denominators). -/
def PyRat.lt (x y : PyRat) : Bool := decide (x.num * (y.den : Int) < y.num * (x.den : Int))

/-- A Python float: not-a-number, the infinities, or an exact finite value. -/
inductive PyFloat where
  | nan : PyFloat
  | inf : PyFloat
  | ninf : PyFloat
  | fin : PyRat → PyFloat
deriving DecidableEq

/-- Python `==` on floats: `nan` is unequal to everything, including itself. -/
def pyEq : PyFloat → PyFloat → Bool
  | .nan, _ => false
  | _, .nan => false
  | .inf, .inf => true
  | .ninf, .ninf => true
  | .fin a, .fin b => a.eq b
  | _, _ => false

/-- Python `<` on floats: any comparison with `nan` is false. -/
def pyLt : PyFloat → PyFloat → Bool
  | .nan, _ => false
  | _, .nan => false
  | .ninf, .ninf => false
  | .ninf, _ => true
  | _, .ninf => false
  | .inf, _ => false
  | .fin _, .inf => true
  | .fin a, .fin b => a.lt b

/-- Python `<=` on floats. -/
def pyLe (a b : PyFloat) : Bool := pyLt a b || pyEq a b

/-- Python float addition (`inf + (-inf)` is `nan`; `nan` propagates). -/
def pyAdd : PyFloat → PyFloat → PyFloat
  | .nan, _ => .nan
  | _, .nan => .nan
  | .inf, .ninf => .nan
  | .ninf, .inf => .nan
  | .inf, _ => .inf
  | _, .inf => .inf
  | .ninf, _ => .ninf
  | _, .ninf => .ninf
  | .fin a, .fin b => .fin (a.add b)

/-- Python float subtraction. -/
def pySub : PyFloat → PyFloat → PyFloat
  | .nan, _ => .nan
  | _, .nan => .nan
  | .inf, .inf => .nan
  | .ninf, .ninf => .nan
  | .inf, _ => .inf
  | .ninf, _ => .ninf
  | _, .inf => .ninf
  | _, .ninf => .inf
  | .fin a, .fin b => .fin (a.sub b)

/-- Python float negation. -/
def pyNeg : PyFloat → PyFloat
  | .nan => .nan
  | .inf => .ninf
  | .ninf => .inf
  | .fin a => .fin a.neg

/-- Python float multiplication (`0 * inf` is `nan`; `nan` propagates). -/
def pyMul : PyFloat → PyFloat → PyFloat
  | .nan, _ => .nan
  | _, .nan => .nan
  | .inf, .inf => .inf
  | .inf, .ninf => .ninf
  | .ninf, .inf => .ninf
  | .ninf, .ninf => .inf
  | .inf, .fin b => if 0 < b.num then .inf else if b.num < 0 then .ninf else .nan
  | .ninf, .fin b => if 0 < b.num then .ninf else if b.num < 0 then .inf else .nan
  | .fin a, .inf => if 0 < a.num then .inf else if a.num < 0 then .ninf else .nan
  | .fin a, .ninf => if 0 < a.num then .ninf else if a.num < 0 then .inf else .nan
  | .fin a, .fin b => .fin (a.mul b)

/-- Python `min(a, b)`: iteration keeps the current value unless the next one
compares strictly smaller, so `min` with a `nan` second argument returns the
first argument. -/
def pyMin (a b : PyFloat) : PyFloat := if pyLt b a then b else a

/-- Python `max(a, b)`: the next value replaces the current one only when it
compares strictly greater. -/
def pyMax (a b : PyFloat) : PyFloat := if pyLt a b then b else a

/-- Python `sum(xs)` over floats (the built-in starts from integer `0`). -/
def pySum (xs : List PyFloat) : PyFloat := xs.foldl pyAdd (.fin (fr 0 0))

/-- Python `x / len(xs)` where the divisor is a positive list length.  The
`n = 0` branch is unreachable in the source (it would raise
`ZeroDivisionError`); it is mapped to `nan` only to keep the model total. -/
def pyDivNat (x : PyFloat) (n : Nat) : PyFloat :=
  if h : n = 0 then .nan
  else match x with
    | .nan => .nan
    | .inf => .inf
    | .ninf => .ninf
    | .fin a => .fin (a.divNat n (Nat.pos_of_ne_zero h))

/-! ### Python `float(str)` conversion and `str.split()`

`parse_linear_ring` (source lines 26-34) runs `float(v)` on every
whitespace-separated token of the `gml:posList` text.  CPython's `float`
accepts an optional sign followed by `inf`, `infinity` or `nan`
(case-insensitively) or a decimal literal (`digits`, `digits.`, `.digits`,
`digits.digits`, optionally with an exponent part, with single underscores
allowed between digits).  Finite literals are decoded here to their exact
rational value. -/

/-- Whitespace for Python `str.split()` (ASCII range). -/
def isPySpace (c : Char) : Bool :=
  c = ' ' || c = '\t' || c = '\n' || c = '\r' || c.toNat = 11 || c.toNat = 12

/-- Worker for `pySplit`; accumulates the current token in reverse. -/
def pySplitAux : List Char → List Char → List String
  | [], acc => if acc.isEmpty then [] else [String.mk acc.reverse]
  | c :: cs, acc =>
    if isPySpace c then
      if acc.isEmpty then pySplitAux cs [] else String.mk acc.reverse :: pySplitAux cs []
    else pySplitAux cs (c :: acc)

/-- Python `str.split()` with no argument: split on whitespace runs, dropping
empty tokens. -/
def pySplit (s : String) : List String := pySplitAux s.data []

/-- Numeric value of a digit character. -/
def digitVal (c : Char) : Nat := c.toNat - 48

/-- Consume a run of digits with single underscores allowed between digits.
Returns the accumulated value, the number of digits consumed, and the rest.
A trailing or doubled underscore is left unconsumed (so a full-token parse
rejects it). -/
def digitsAux : Nat → Nat → List Char → Nat × Nat × List Char
  | acc, cnt, [] => (acc, cnt, [])
  | acc, cnt, [c] =>
    if c.isDigit then (10 * acc + digitVal c, cnt + 1, []) else (acc, cnt, [c])
  | acc, cnt, c :: c2 :: cs =>
    if c.isDigit then digitsAux (10 * acc + digitVal c) (cnt + 1) (c2 :: cs)
    else if c = '_' && c2.isDigit then digitsAux (10 * acc + digitVal c2) (cnt + 1) cs
    else (acc, cnt, c :: c2 :: cs)

/-- A `digitpart` of the Python float grammar: at least one digit, with
optional internal underscores. -/
def digitpart (cs : List Char) : Option (Nat × Nat × List Char) :=
  match cs with
  | c :: rest => if c.isDigit then some (digitsAux (digitVal c) 1 rest) else none
  | [] => none

/-- Parse the optional exponent suffix of a float literal and require the end
of the token; `m` is the value of the mantissa already parsed. -/
def parseExp (m : PyRat) (cs : List Char) : Option PyRat :=
  match cs with
  | [] => some m
  | e :: rest =>
    if e = 'e' || e = 'E' then
      let (negExp, rest2) :=
        match rest with
        | '+' :: r => (false, r)
        | '-' :: r => (true, r)
        | r => (false, r)
      match digitpart rest2 with
      | some (ev, _, rest3) =>
        if rest3.isEmpty then
          if negExp then some ⟨m.num, m.den * 10 ^ ev, Nat.mul_pos m.dpos (Nat.pos_pow_of_pos ev (by decide))⟩
          else some ⟨m.num * (10 ^ ev : Nat), m.den, m.dpos⟩
        else none
      | none => none
    else none

/-- Parse an unsigned Python decimal float literal (`1`, `1.`, `.5`, `1.5`,
each optionally followed by an exponent part) to its exact value. -/
def pyNumeric (cs : List Char) : Option PyRat :=
  match digitpart cs with
  | some (iv, _, rest) =>
    match rest with
    | '.' :: rest2 =>
      match digitpart rest2 with
      | some (fv, fc, rest3) =>
        parseExp ⟨(iv * 10 ^ fc + fv : Nat), 10 ^ fc, Nat.pos_pow_of_pos fc (by decide)⟩ rest3
      | none => parseExp ⟨(iv : Nat), 1, Nat.one_pos⟩ rest2
    | _ => parseExp ⟨(iv : Nat), 1, Nat.one_pos⟩ rest
  | none =>
    match cs with
    | '.' :: rest2 =>
      match digitpart rest2 with
      | some (fv, fc, rest3) =>
        parseExp ⟨(fv : Nat), 10 ^ fc, Nat.pos_pow_of_pos fc (by decide)⟩ rest3
      | none => none
    | _ => none

/-- Apply a leading minus sign to a parsed value. -/
def pyApplySign (neg : Bool) : PyFloat → PyFloat
  | .nan => .nan
  | .inf => if neg then .ninf else .inf
  | .ninf => if neg then .inf else .ninf
  | .fin a => if neg then .fin a.neg else .fin a

/-- CPython `float(tok)` on a whitespace-free token: `none` models a raised
`ValueError`.  Note that the tokens `nan`, `inf` and `infinity` (in any case,
with an optional sign) are accepted. -/
def pyFloatOfString (s : String) : Option PyFloat :=
  let (neg, rest) :=
    match s.data with
    | '+' :: r => (false, r)
    | '-' :: r => (true, r)
    | r => (false, r)
  let low := rest.map Char.toLower
  if low = "inf".data || low = "infinity".data then some (pyApplySign neg .inf)
  else if low = "nan".data then some .nan
  else
    match pyNumeric rest with
    | some q => some (pyApplySign neg (.fin q))
    | none => none

/-! ### XML documents and the geometry pipeline -/

/-- Errors of the pipeline: `parseError tok` models the `ValueError` raised by
`float(tok)`; `valueError` models the `ValueError` raised by unpacking a tuple
that does not have exactly three components; `emptyInput` models the
`SystemExit` raised in `main` when no triangles were extracted. -/
inductive RunError where
  | parseError : String → RunError
  | valueError : RunError
  | emptyInput : String → RunError
deriving DecidableEq

instance {ε α : Type} [DecidableEq ε] [DecidableEq α] : DecidableEq (Except ε α)
  | .ok a, .ok b =>
    if h : a = b then isTrue (by rw [h]) else isFalse (by intro hc; cases hc; exact h rfl)
  | .ok _, .error _ => isFalse (by intro hc; cases hc)
  | .error _, .ok _ => isFalse (by intro hc; cases hc)
  | .error e, .error f =>
    if h : e = f then isTrue (by rw [h]) else isFalse (by intro hc; cases hc; exact h rfl)

/-- A parsed XML element: tag, optional text, child elements. -/
inductive Node where
  | mk (tag : String) (text : Option String) (children : List Node) : Node

/-- The tag of an element. -/
def Node.tag : Node → String
  | .mk t _ _ => t

/-- The text of an element (`None` or a string in Python). -/
def Node.text : Node → Option String
  | .mk _ x _ => x

/-- The child elements of an element. -/
def Node.children : Node → List Node
  | .mk _ _ c => c

mutual

/-- All proper descendants of an element, in document (pre-)order. -/
def descendants : Node → List Node
  | .mk _ _ cs => descList cs

/-- All elements of a forest together with their proper descendants, in
document order. -/
def descList : List Node → List Node
  | [] => []
  | c :: cs => c :: descendants c ++ descList cs

end

/-- `ElementTree.Element.findall(".//tag")`: all descendants carrying the tag,
in document order. -/
def findall (n : Node) (t : String) : List Node :=
  (descendants n).filter (fun c => c.tag == t)

/-- `ElementTree.Element.find("tag")`: the first direct child carrying the
tag, if any. -/
def find1 (n : Node) (t : String) : Option Node :=
  n.children.find? (fun c => c.tag == t)

/-- A decoded coordinate tuple.  The source annotates these as 3-tuples, but
`chunked` genuinely produces a shorter final tuple when the token count is not
a multiple of 3, so tuples are modelled as lists. -/
abbrev Vert := List PyFloat

/-- A triangle: the source builds it as a list `[anchor, coords[i],
coords[i+1]]`. -/
abbrev Tri := List Vert

/-- Fuel-driven worker for `chunked`; the fuel starts at the list length and
each step consumes at least one element, so it never runs out. -/
def chunkedGo (size : Nat) : Nat → List PyFloat → List Vert
  | _, [] => []
  | 0, _ :: _ => []
  | fuel + 1, x :: xs => ((x :: xs).take size) :: chunkedGo size fuel ((x :: xs).drop size)

/-- `chunked(seq, size)` (source lines 21-23): split a flat list into
consecutive tuples of `size` elements; the final tuple is shorter when the
length is not a multiple of `size`.  The source calls it only with
`size = 3`; `size = 0` (an infinite loop of empty chunks in Python's
`range(0, n, 0)`, which actually raises `ValueError`) is mapped to `[]` to
keep the model total. -/
def chunked (seq : List PyFloat) (size : Nat) : List Vert :=
  if size = 0 then [] else chunkedGo size seq.length seq

/-- Python `==` on two decoded tuples: equal lengths and pairwise float
equality (so any tuple containing `nan` is unequal to every tuple, itself
included). -/
def vertEq : Vert → Vert → Bool
  | [], [] => true
  | a :: as2, b :: bs => pyEq a b && vertEq as2 bs
  | _, _ => false

/-- `[float(v) for v in tokens]`: decodes every token, failing with the
`ValueError` of the first undecodable token. -/
def floatList : List String → Except RunError (List PyFloat)
  | [] => .ok []
  | t :: ts =>
    match pyFloatOfString t with
    | some v =>
      match floatList ts with
      | .ok vs => .ok (v :: vs)
      | .error e => .error e
    | none => .error (.parseError t)

/-- `parse_linear_ring` (source lines 26-34): find the direct `gml:posList`
child; absent node or falsy (absent/empty) text gives an empty ring; otherwise
split the text, convert every token with `float`, group into triples, and drop
the final tuple when the ring closes on itself (`len(coords) > 1 and
coords[0] == coords[-1]`). -/
def parse_linear_ring (ring : Node) : Except RunError (List Vert) :=
  match find1 ring "gml:posList" with
  | none => .ok []
  | some posListNode =>
    match posListNode.text with
    | none => .ok []
    | some t =>
      if t = "" then .ok []
      else
        match floatList (pySplit t) with
        | .error e => .error e
        | .ok raw_values =>
          let coords := chunked raw_values 3
          .ok (if decide (1 < coords.length) && vertEq (coords.headD []) (coords.getLastD [])
               then coords.dropLast else coords)

/-- The fan loop of `polygon_to_triangles`: triangles `[anchor, c_i, c_(i+1)]`
for consecutive pairs of the remaining vertices. -/
def fanPairs (anchor : Vert) : List Vert → List Tri
  | b :: c :: rest => [anchor, b, c] :: fanPairs anchor (c :: rest)
  | _ => []

/-- `polygon_to_triangles` (source lines 37-44): fewer than 3 vertices yield
no triangles; otherwise a triangle fan anchored at the first vertex. -/
def polygon_to_triangles (coords : List Vert) : List Tri :=
  if coords.length < 3 then []
  else
    match coords with
    | [] => []
    | anchor :: rest => fanPairs anchor rest

/-- The inner loop of `extract_triangles`: `for ring in ...:
triangles.extend(polygon_to_triangles(parse_linear_ring(ring)))`, with the
`float` `ValueError` propagating. -/
def ringLoop (acc : List Tri) : List Node → Except RunError (List Tri)
  | [] => .ok acc
  | r :: rs =>
    match parse_linear_ring r with
    | .error e => .error e
    | .ok coords => ringLoop (acc ++ polygon_to_triangles coords) rs

/-- The outer loop of `extract_triangles` over `bldg:lod1Solid` nodes, each
contributing its descendant `gml:LinearRing` nodes. -/
def solidLoop (acc : List Tri) : List Node → Except RunError (List Tri)
  | [] => .ok acc
  | s :: ss =>
    match ringLoop acc (findall s "gml:LinearRing") with
    | .error e => .error e
    | .ok acc2 => solidLoop acc2 ss

/-- `extract_triangles` (source lines 47-61) for one parsed document: collect
triangles from rings inside `bldg:lod1Solid` solids; if that yields no
triangles, fall back to every `gml:LinearRing` in the document. -/
def extract_triangles (root : Node) : Except RunError (List Tri) :=
  match solidLoop [] (findall root "bldg:lod1Solid") with
  | .error e => .error e
  | .ok triangles =>
    if triangles = [] then ringLoop [] (findall root "gml:LinearRing")
    else .ok triangles

/-! ### Projection, bounding box, and the orchestrator

`degrees_to_meters_converter` (source lines 64-68) evaluates a fixed
cosine-based formula; the cosine is transcendental and has no exact
kernel-computable model, so the converter is passed into the model as an
explicit function argument `d2m` wherever the source calls it.  No claim
below depends on the value it returns. -/

/-- The bounding box accumulator of `convert_coordinates`: six floats,
initialized to the `+inf` / `-inf` sentinels. -/
structure Bounds where
  min_x : PyFloat
  min_y : PyFloat
  min_z : PyFloat
  max_x : PyFloat
  max_y : PyFloat
  max_z : PyFloat
deriving DecidableEq

/-- The sentinel bounding box before any vertex is seen. -/
def initBounds : Bounds := ⟨.inf, .inf, .inf, .ninf, .ninf, .ninf⟩

/-- The projection of one geographic vertex (source lines 84-86):
`x = (lon - lon0) * lon_scale`, `y = height`,
`z = -(lat - lat0) * lat_scale`. -/
def projectVertex (lat0 lon0 latS lonS lat lon height : PyFloat) :
    PyFloat × PyFloat × PyFloat :=
  (pyMul (pySub lon lon0) lonS, height, pyMul (pyNeg (pySub lat lat0)) latS)

/-- Update the running bounding box with one projected vertex
(source lines 87-92). -/
def updBounds (b : Bounds) (p : PyFloat × PyFloat × PyFloat) : Bounds :=
  { min_x := pyMin b.min_x p.1, max_x := pyMax b.max_x p.1
    min_y := pyMin b.min_y p.2.1, max_y := pyMax b.max_y p.2.1
    min_z := pyMin b.min_z p.2.2, max_z := pyMax b.max_z p.2.2 }

/-- The per-triangle vertex loop of `convert_coordinates` (source lines
83-93): unpack each vertex as `(lat, lon, height)` (a wrong-sized tuple
raises `ValueError`), project it, update the bounds, and extend the flat
list with `(x, y, z)`. -/
def convTriAux (lat0 lon0 latS lonS : PyFloat) :
    List Vert → List PyFloat → Bounds → Except RunError (List PyFloat × Bounds)
  | [], flat, b => .ok (flat, b)
  | v :: vs, flat, b =>
    match v with
    | [lat, lon, height] =>
      let p := projectVertex lat0 lon0 latS lonS lat lon height
      convTriAux lat0 lon0 latS lonS vs (flat ++ [p.1, p.2.1, p.2.2]) (updBounds b p)
    | _ => .error .valueError

/-- The triangle loop of `convert_coordinates` (source lines 81-94): each
triangle contributes one flattened 9-float record. -/
def convLoop (lat0 lon0 latS lonS : PyFloat) :
    List Tri → List (List PyFloat) → Bounds → Except RunError (List (List PyFloat) × Bounds)
  | [], conv, b => .ok (conv, b)
  | tri :: rest, conv, b =>
    match convTriAux lat0 lon0 latS lonS tri [] b with
    | .error e => .error e
    | .ok (flat, b2) => convLoop lat0 lon0 latS lonS rest (conv ++ [flat]) b2

/-- `convert_coordinates` (source lines 71-100): compute the scales at the
origin latitude, project every vertex of every triangle, and accumulate the
bounding box from its `±inf` sentinels. -/
def convert_coordinates (triangles : List Tri) (lat0 lon0 : PyFloat)
    (d2m : PyFloat → PyFloat × PyFloat) :
    Except RunError (List (List PyFloat) × Bounds) :=
  convLoop lat0 lon0 (d2m lat0).1 (d2m lat0).2 triangles [] initBounds

/-- The output record assembled by `main` (source lines 137-151), minus JSON
serialization mechanics. -/
structure Output where
  origin_lat : PyFloat
  origin_lon : PyFloat
  triangles : List (List PyFloat)
  bounds : Bounds
  source_files : List String
  lat_scale : PyFloat
  lon_scale : PyFloat
deriving DecidableEq

/-- The sample-collection loop over one triangle (source line 122):
`for lat, lon, _ in tri` appends the latitude and longitude of each vertex;
a wrong-sized vertex raises `ValueError`. -/
def collectTri : List Vert → List PyFloat → List PyFloat →
    Except RunError (List PyFloat × List PyFloat)
  | [], lats, lons => .ok (lats, lons)
  | v :: vs, lats, lons =>
    match v with
    | [lat, lon, _h] => collectTri vs (lats ++ [lat]) (lons ++ [lon])
    | _ => .error .valueError

/-- The sample-collection loop over one file's triangles (source lines
121-124). -/
def collectTriangles : List Tri → List PyFloat → List PyFloat →
    Except RunError (List PyFloat × List PyFloat)
  | [], lats, lons => .ok (lats, lons)
  | tri :: rest, lats, lons =>
    match collectTri tri lats lons with
    | .error e => .error e
    | .ok (lats2, lons2) => collectTriangles rest lats2 lons2

/-- The per-file loop of `main` (source lines 117-125): extract a file's
triangles, skip the file when there are none, otherwise collect the origin
samples and extend the aggregate triangle list. -/
def fileLoop : List (String × Node) → List Tri → List PyFloat → List PyFloat →
    Except RunError (List Tri × List PyFloat × List PyFloat)
  | [], all_triangles, lats, lons => .ok (all_triangles, lats, lons)
  | (_, doc) :: rest, all_triangles, lats, lons =>
    match extract_triangles doc with
    | .error e => .error e
    | .ok triangles =>
      if triangles = [] then fileLoop rest all_triangles lats lons
      else
        match collectTriangles triangles lats lons with
        | .error e => .error e
        | .ok (lats2, lons2) => fileLoop rest (all_triangles ++ triangles) lats2 lons2

/-- The message of the `SystemExit` raised when no triangles exist
(source line 128). -/
def emptyMessage : String := "No triangles could be extracted from the provided GML files"

/-- `main` (source lines 103-151) minus the external collaborators (argument
parsing, globbing, the file cap, XML reading and JSON writing): the input is
the ordered list of (file name, parsed document) pairs and the
degrees-to-meters converter.  An `Except.error` result models a run that
aborts with no output written.  (The source names this function `main`; that
name is reserved for executable entry points in Lean.) -/
def mainConvert (files : List (String × Node)) (d2m : PyFloat → PyFloat × PyFloat) :
    Except RunError Output :=
  match fileLoop files [] [] [] with
  | .error e => .error e
  | .ok (all_triangles, lats, lons) =>
    if all_triangles = [] then .error (.emptyInput emptyMessage)
    else
      let lat0 := pyDivNat (pySum lats) lats.length
      let lon0 := pyDivNat (pySum lons) lons.length
      match convert_coordinates all_triangles lat0 lon0 d2m with
      | .error e => .error e
      | .ok (converted, bounds) =>
        .ok { origin_lat := lat0, origin_lon := lon0, triangles := converted,
              bounds := bounds, source_files := files.map Prod.fst,
              lat_scale := (d2m lat0).1, lon_scale := (d2m lat0).2 }

/-! ### Spec-side characterizations

These definitions restate, directly from the specification's wording, what
the loop-shaped source code is claimed to compute; the claim theorems below
connect them to the model of the source. -/

/-- Whether an `Except` result is a success. -/
def exceptOk {α : Type} : Except RunError α → Bool
  | .ok _ => true
  | .error _ => false

/-- Whether ring parsing fails (raises). -/
def parseFails (ring : Node) : Bool := !(exceptOk (parse_linear_ring ring))

/-- Whether the ring's coordinate list contains a token rejected by Python
`float` conversion (the amended reading of "not a valid floating-point
literal"). -/
def hasBadToken (ring : Node) : Bool :=
  match find1 ring "gml:posList" with
  | none => false
  | some posListNode =>
    match posListNode.text with
    | none => false
    | some t => !(t == "") && (pySplit t).any (fun tok => (pyFloatOfString tok).isNone)

/-- The rings of the restricted search: every `gml:LinearRing` descendant of
every `bldg:lod1Solid` descendant of the root, in processing order. -/
def solidRings (root : Node) : List Node :=
  (findall root "bldg:lod1Solid").flatMap (fun s => findall s "gml:LinearRing")

/-- Ring extraction followed by fan triangulation over a list of rings, as a
single comprehension: the specification's "repeat ring extraction +
triangulation". -/
def ringsToTriangles (rings : List Node) : Except RunError (List Tri) :=
  match rings with
  | [] => .ok []
  | r :: rs =>
    match parse_linear_ring r with
    | .error e => .error e
    | .ok coords =>
      match ringsToTriangles rs with
      | .error e => .error e
      | .ok rest => .ok (polygon_to_triangles coords ++ rest)

/-- Per-file triangle extraction over the whole input set, in processing
order. -/
def extractAll : List (String × Node) → Except RunError (List (List Tri))
  | [] => .ok []
  | (_, doc) :: fs =>
    match extract_triangles doc with
    | .error e => .error e
    | .ok ts =>
      match extractAll fs with
      | .error e => .error e
      | .ok rest => .ok (ts :: rest)

/-- The latitude samples of a list of triangles: the first component of every
vertex, in order. -/
def specLats (triangles : List Tri) : List PyFloat :=
  triangles.flatMap (fun tri => tri.map (fun v => v.headD .nan))

/-- The longitude samples of a list of triangles: the second component of
every vertex, in order. -/
def specLons (triangles : List Tri) : List PyFloat :=
  triangles.flatMap (fun tri => tri.map (fun v => (v.drop 1).headD .nan))

/-- The projected (x, y, z) triple of one decoded vertex, read off its three
components. -/
def projV (lat0 lon0 latS lonS : PyFloat) (v : Vert) : PyFloat × PyFloat × PyFloat :=
  projectVertex lat0 lon0 latS lonS (v.headD .nan) ((v.drop 1).headD .nan)
    ((v.drop 2).headD .nan)

/-- The `source_files` metadata of a successful run, if any. -/
def okSourceFiles : Except RunError Output → Option (List String)
  | .ok out => some out.source_files
  | .error _ => none

/-! ### Concrete fixtures used by counterexamples and witnesses -/

/-- Shorthand for the finite float with integer value `n`. -/
def fi (n : Int) : PyFloat := .fin (fr n 0)

/-- A ring whose coordinate list is the single triple `1 2 3`. -/
def cxRingOne : Node := .mk "gml:LinearRing" none [.mk "gml:posList" (some "1 2 3") []]

/-- `cxRingOne` with its last (only) triple removed. -/
def cxRingZero : Node := .mk "gml:LinearRing" none [.mk "gml:posList" (some "") []]

/-- A closed ring: four texture triples whose first and last coincide. -/
def cxRingClosed : Node :=
  .mk "gml:LinearRing" none [.mk "gml:posList" (some "1 2 3 4 5 6 7 8 9 1 2 3") []]

/-- A ring containing the token `NaN`, which CPython `float` accepts. -/
def cxRingNan : Node := .mk "gml:LinearRing" none [.mk "gml:posList" (some "NaN 0 1") []]

/-- A ring containing a genuinely non-numeric token. -/
def cxRingBad : Node := .mk "gml:LinearRing" none [.mk "gml:posList" (some "1 abc 3") []]

/-- A ring whose token count (4) is not a multiple of 3. -/
def cxRingFour : Node := .mk "gml:LinearRing" none [.mk "gml:posList" (some "1 2 3 4") []]

/-- A document with no rings at all. -/
def cxEmptyDoc : Node := .mk "root" none []

/-- A document whose only ring sits outside any `bldg:lod1Solid`, so only the
fallback sweep can find it. -/
def cxTriDoc : Node :=
  .mk "root" none [.mk "gml:LinearRing" none [.mk "gml:posList" (some "0 0 0 1 0 0 0 1 0") []]]

/-- A document with an empty target solid and a fallback ring elsewhere
(end-to-end scenario 2). -/
def cx9Doc : Node :=
  .mk "root" none
    [.mk "bldg:lod1Solid" none [],
     .mk "gml:LinearRing" none [.mk "gml:posList" (some "0 0 0 1 0 0 0 1 0") []]]

/-- An input set with one empty file and one contributing file. -/
def cxFiles : List (String × Node) := [("a.gml", cxEmptyDoc), ("b.gml", cxTriDoc)]

/-- A stand-in degrees-to-meters converter returning unit scales. -/
def cxD2M : PyFloat → PyFloat × PyFloat := fun _ => (fi 1, fi 1)

/-! ### Lemmas about the fan triangulation -/

theorem fanPairs_length : ∀ (rest : List Vert) (anchor : Vert),
    (fanPairs anchor rest).length = rest.length - 1 := by
  intro rest
  induction rest with
  | nil => intro anchor; rfl
  | cons b t ih =>
    intro anchor
    cases t with
    | nil => rfl
    | cons c t2 =>
      have h := ih anchor
      simp only [fanPairs, List.length_cons] at h ⊢
      omega

theorem fanPairs_get : ∀ (rest : List Vert) (anchor : Vert) (j : Nat)
    (h1 : j < rest.length) (h2 : j + 1 < rest.length)
    (hf : j < (fanPairs anchor rest).length),
    (fanPairs anchor rest).get ⟨j, hf⟩ =
      [anchor, rest.get ⟨j, h1⟩, rest.get ⟨j + 1, h2⟩] := by
  intro rest
  induction rest with
  | nil => intro anchor j h1 h2 hf; exact absurd h1 (by simp)
  | cons b t ih =>
    intro anchor j h1 h2 hf
    cases t with
    | nil => exact absurd h2 (by simp)
    | cons c t2 =>
      cases j with
      | zero => rfl
      | succ j2 =>
        have h1b : j2 < (c :: t2).length := by simp at h1 ⊢; omega
        have h2b : j2 + 1 < (c :: t2).length := by simp at h2 ⊢; omega
        have hfb : j2 < (fanPairs anchor (c :: t2)).length := by
          simp only [fanPairs, List.length_cons] at hf ⊢; omega
        have := ih anchor j2 h1b h2b hfb
        simpa only [fanPairs, List.get_cons_succ] using this

/-- Claim C4: a ring of fewer than 3 vertices triangulates to the empty
sequence, and a ring of length N >= 3 yields exactly N - 2 triangles, the
i-th (1-based) being `(ring[0], ring[i], ring[i+1])` — every triangle shares
vertex 0 as its first element. -/
theorem claim4_fan_triangulation (coords : List Vert) :
    (coords.length < 3 → polygon_to_triangles coords = []) ∧
    (3 ≤ coords.length →
      (polygon_to_triangles coords).length = coords.length - 2 ∧
      ∀ i : Nat, 1 ≤ i → i ≤ coords.length - 2 →
        ∀ (hf : i - 1 < (polygon_to_triangles coords).length)
          (h0 : 0 < coords.length) (ha : i < coords.length)
          (hb : i + 1 < coords.length),
          (polygon_to_triangles coords).get ⟨i - 1, hf⟩ =
            [coords.get ⟨0, h0⟩, coords.get ⟨i, ha⟩, coords.get ⟨i + 1, hb⟩]) := by
  constructor
  · intro hlt
    simp [polygon_to_triangles, hlt]
  · intro hge
    have hnlt : ¬ coords.length < 3 := by omega
    cases coords with
    | nil => simp at hge
    | cons anchor rest =>
      have hpoly : polygon_to_triangles (anchor :: rest) = fanPairs anchor rest := by
        unfold polygon_to_triangles
        rw [if_neg hnlt]
      constructor
      · rw [hpoly, fanPairs_length]
        simp
      · intro i hi1 hi2 hf h0 ha hb
        have hj1 : i - 1 < rest.length := by simp at ha; omega
        have hj2 : (i - 1) + 1 < rest.length := by simp at hb; omega
        have hfb : i - 1 < (fanPairs anchor rest).length := by rw [← hpoly]; exact hf
        have hget := fanPairs_get rest anchor (i - 1) hj1 hj2 hfb
        rw [List.get_of_eq hpoly]
        have hia : (anchor :: rest).get ⟨i, ha⟩ = rest.get ⟨i - 1, hj1⟩ := by
          cases i with
          | zero => omega
          | succ i2 => simp
        have hib : (anchor :: rest).get ⟨i + 1, hb⟩ = rest.get ⟨(i - 1) + 1, hj2⟩ := by
          cases i with
          | zero => omega
          | succ i2 =>
            have : i2 + 1 - 1 + 1 = i2 + 1 := by omega
            simp [this]
        rw [hia, hib]
        exact hget

/-- Witness for C4 at concrete rings: the empty ring and a 2-vertex ring give
no triangles, and a 4-vertex ring gives 2 triangles anchored at vertex 0. -/
theorem claim4_witness :
    polygon_to_triangles [] = [] ∧
    polygon_to_triangles [[fi 1], [fi 2]] = [] ∧
    (polygon_to_triangles [[fi 1], [fi 2], [fi 3], [fi 4]]).length = 2 ∧
    (polygon_to_triangles [[fi 1], [fi 2], [fi 3], [fi 4]]).get ⟨0, by decide⟩ =
      [[fi 1], [fi 2], [fi 3]] := by
  refine ⟨(claim4_fan_triangulation []).1 (by decide),
          (claim4_fan_triangulation [[fi 1], [fi 2]]).1 (by decide),
          ((claim4_fan_triangulation [[fi 1], [fi 2], [fi 3], [fi 4]]).2 (by decide)).1,
          ?_⟩
  have h := ((claim4_fan_triangulation [[fi 1], [fi 2], [fi 3], [fi 4]]).2 (by decide)).2
    1 (by decide) (by decide) (by decide) (by decide) (by decide) (by decide)
  simpa using h

/-! ### Lemmas connecting the extraction loops to their comprehension form -/

theorem ringsToTriangles_append (as bs : List Node) :
    ringsToTriangles (as ++ bs) =
      match ringsToTriangles as with
      | .error e => .error e
      | .ok ts1 =>
        match ringsToTriangles bs with
        | .error e => .error e
        | .ok ts2 => .ok (ts1 ++ ts2) := by
  induction as with
  | nil =>
    simp only [List.nil_append, ringsToTriangles]
    cases ringsToTriangles bs <;> simp
  | cons r rs ih =>
    simp only [List.cons_append, ringsToTriangles]
    cases parse_linear_ring r with
    | error e => rfl
    | ok coords =>
      dsimp only
      rw [show rs.append bs = rs ++ bs from rfl, ih]
      cases ringsToTriangles rs with
      | error e => rfl
      | ok ts1 =>
        cases ringsToTriangles bs with
        | error e => rfl
        | ok ts2 => simp

theorem ringLoop_eq : ∀ (rings : List Node) (acc : List Tri),
    ringLoop acc rings =
      match ringsToTriangles rings with
      | .error e => .error e
      | .ok ts => .ok (acc ++ ts) := by
  intro rings
  induction rings with
  | nil => intro acc; simp [ringLoop, ringsToTriangles]
  | cons r rs ih =>
    intro acc
    simp only [ringLoop, ringsToTriangles]
    cases parse_linear_ring r with
    | error e => rfl
    | ok coords =>
      dsimp only
      rw [ih]
      cases ringsToTriangles rs with
      | error e => rfl
      | ok ts => simp

theorem solidLoop_eq : ∀ (solids : List Node) (acc : List Tri),
    solidLoop acc solids =
      match ringsToTriangles (solids.flatMap (fun s => findall s "gml:LinearRing")) with
      | .error e => .error e
      | .ok ts => .ok (acc ++ ts) := by
  intro solids
  induction solids with
  | nil => intro acc; simp [solidLoop, ringsToTriangles]
  | cons s ss ih =>
    intro acc
    simp only [solidLoop, List.flatMap_cons]
    rw [ringsToTriangles_append, ringLoop_eq]
    cases ringsToTriangles (findall s "gml:LinearRing") with
    | error e => rfl
    | ok ts1 =>
      dsimp only
      rw [ih]
      cases ringsToTriangles (ss.flatMap (fun s2 => findall s2 "gml:LinearRing")) with
      | error e => rfl
      | ok ts2 => simp

/-- Claim C9: when the search restricted to `bldg:lod1Solid` solids yields
zero triangles for the whole document, the extractor falls back to the
document-wide `gml:LinearRing` search; when it yields at least one triangle,
the fallback is not taken and the restricted result is returned. -/
theorem claim9_fallback (root : Node) :
    (ringsToTriangles (solidRings root) = .ok [] →
       extract_triangles root = ringsToTriangles (findall root "gml:LinearRing")) ∧
    (∀ ts : List Tri, ringsToTriangles (solidRings root) = .ok ts → ts ≠ [] →
       extract_triangles root = .ok ts) := by
  have hsolid := solidLoop_eq (findall root "bldg:lod1Solid") []
  rw [show (findall root "bldg:lod1Solid").flatMap (fun s => findall s "gml:LinearRing") =
        solidRings root from rfl] at hsolid
  constructor
  · intro hempty
    rw [extract_triangles, hsolid, hempty]
    simp only [List.nil_append, if_pos rfl]
    rw [ringLoop_eq]
    cases ringsToTriangles (findall root "gml:LinearRing") with
    | error e => rfl
    | ok ts => simp
  · intro ts hts hne
    rw [extract_triangles, hsolid, hts]
    simp only [List.nil_append]
    rw [if_neg hne]

/-- Witness for C9 on end-to-end scenario 2: a document whose only solid has
no rings but which carries a fallback ring elsewhere takes the fallback path,
and the fallback produces one (non-empty) triangle list. -/
theorem claim9_witness :
    extract_triangles cx9Doc = ringsToTriangles (findall cx9Doc "gml:LinearRing") ∧
    ringsToTriangles (findall cx9Doc "gml:LinearRing") =
      .ok [[[fi 0, fi 0, fi 0], [fi 1, fi 0, fi 0], [fi 0, fi 1, fi 0]]] :=
  ⟨(claim9_fallback cx9Doc).1 (by decide), by decide⟩

/-! ### Claims C2 and C5: metadata file list and the empty-input failure -/

/-- The output record of the run over `cxFiles` (one empty file `a.gml`, one
contributing file `b.gml`) with unit scales. -/
def cxOut : Output :=
  { origin_lat := .fin (fr 1 2), origin_lon := .fin (fr 1 2)
    triangles := [[.fin (fr (-1) 2), fi 0, .fin (fr 1 2),
                   .fin (fr (-1) 2), fi 0, .fin (fr (-2) 2),
                   .fin (fr 2 2), fi 0, .fin (fr 1 2)]]
    bounds := ⟨.fin (fr (-1) 2), fi 0, .fin (fr (-2) 2),
               .fin (fr 2 2), fi 0, .fin (fr 1 2)⟩
    source_files := ["a.gml", "b.gml"]
    lat_scale := fi 1, lon_scale := fi 1 }

/-- Counterexample to claim C2 as stated: in the run over `cxFiles`, file
`a.gml` yields zero triangles, yet the produced `source_files` metadata lists
both file names — not only the contributing `b.gml`. -/
theorem claim2_counterexample :
    extract_triangles cxEmptyDoc = .ok [] ∧
    mainConvert cxFiles cxD2M = .ok cxOut ∧
    cxOut.source_files = ["a.gml", "b.gml"] ∧
    ["a.gml", "b.gml"] ≠ (["b.gml"] : List String) :=
  ⟨by decide, by decide, rfl, by decide⟩

/-- Claim C2 amended: the `source_files` metadata of a successful run lists
the names of all enumerated input files, in processing order, regardless of
whether they yielded any triangle. -/
theorem claim2_amended (files : List (String × Node))
    (d2m : PyFloat → PyFloat × PyFloat) (out : Output)
    (h : mainConvert files d2m = .ok out) :
    out.source_files = files.map Prod.fst := by
  unfold mainConvert at h
  cases hf : fileLoop files [] [] [] with
  | error e => rw [hf] at h; cases h
  | ok res =>
    rw [hf] at h
    obtain ⟨A, L, O⟩ := res
    dsimp only at h
    by_cases hA : A = []
    · rw [if_pos hA] at h; cases h
    · rw [if_neg hA] at h
      cases hc : convert_coordinates A (pyDivNat (pySum L) L.length)
          (pyDivNat (pySum O) O.length) d2m with
      | error e => rw [hc] at h; cases h
      | ok cb =>
        rw [hc] at h
        obtain ⟨conv, b⟩ := cb
        dsimp only at h
        cases h
        rfl

/-- Witness for (amended) C2 at the concrete two-file run. -/
theorem claim2_witness : cxOut.source_files = cxFiles.map Prod.fst :=
  claim2_amended cxFiles cxD2M cxOut (by decide)

theorem fileLoop_all_empty : ∀ (files : List (String × Node))
    (A : List Tri) (L O : List PyFloat),
    (∀ f ∈ files, extract_triangles f.2 = .ok []) →
    fileLoop files A L O = .ok (A, L, O) := by
  intro files
  induction files with
  | nil => intro A L O _; rfl
  | cons f fs ih =>
    intro A L O h
    obtain ⟨name, doc⟩ := f
    have hhead : extract_triangles doc = .ok [] := h (name, doc) (by simp)
    simp only [fileLoop, hhead]
    exact ih A L O (fun g hg => h g (by simp [hg]))

/-- Claim C5: when every input file yields zero triangles, the run fails with
the explicit empty-input message and produces no output record (the
state-changing output steps are never reached). -/
theorem claim5_empty_input (files : List (String × Node))
    (d2m : PyFloat → PyFloat × PyFloat)
    (h : ∀ f ∈ files, extract_triangles f.2 = .ok []) :
    mainConvert files d2m = .error (.emptyInput emptyMessage) := by
  unfold mainConvert
  rw [fileLoop_all_empty files [] [] [] h]
  rfl

/-- Witness for C5: a single empty document aborts with the empty-input
error. -/
theorem claim5_witness :
    mainConvert [("a.gml", cxEmptyDoc)] cxD2M = .error (.emptyInput emptyMessage) :=
  claim5_empty_input [("a.gml", cxEmptyDoc)] cxD2M (by
    intro f hf
    rw [List.mem_singleton] at hf
    rw [hf]
    decide)

/-! ### Claim C3: ring-closure handling -/

/-- A ring whose three triples are all identical. -/
def cxRingAAA : Node :=
  .mk "gml:LinearRing" none [.mk "gml:posList" (some "1 2 3 1 2 3 1 2 3") []]

/-- `cxRingAAA` with its last triple removed. -/
def cxRingAA : Node :=
  .mk "gml:LinearRing" none [.mk "gml:posList" (some "1 2 3 1 2 3") []]

/-- Counterexample to claim C3 as stated.  Claim C3 asserts that any ring
whose first and last decoded triples are equal — with no lower bound on its
length — is mapped by the extractor to the same output as the ring with its
last triple removed.  Two concrete failures: (1) a one-triple ring (its first
and last triples are the same triple) keeps its vertex, while the ring with
that triple removed yields the empty ring; (2) a ring of three identical
triples pops exactly once, while the extractor applied to the shortened ring
pops again, giving a different output. -/
theorem claim3_counterexample :
    parse_linear_ring cxRingOne = .ok [[fi 1, fi 2, fi 3]] ∧
    parse_linear_ring cxRingZero = .ok [] ∧
    (Except.ok [[fi 1, fi 2, fi 3]] : Except RunError (List Vert)) ≠ .ok [] ∧
    parse_linear_ring cxRingAAA = .ok [[fi 1, fi 2, fi 3], [fi 1, fi 2, fi 3]] ∧
    parse_linear_ring cxRingAA = .ok [[fi 1, fi 2, fi 3]] ∧
    (Except.ok [[fi 1, fi 2, fi 3], [fi 1, fi 2, fi 3]] : Except RunError (List Vert)) ≠
      .ok [[fi 1, fi 2, fi 3]] :=
  ⟨by decide, by decide, by decide, by decide, by decide, by decide⟩

/-- Claim C3 amended: for a ring that decodes to at least two tuples whose
first and last tuples are equal under Python float equality, the extractor
returns the decoded tuple list with exactly the last tuple removed (one
removal, no recursive popping; one-tuple rings are returned unchanged; tuples
containing `nan` never compare equal, so such rings are never popped). -/
theorem claim3_amended (ring posListNode : Node) (t : String) (raw : List PyFloat)
    (h1 : find1 ring "gml:posList" = some posListNode)
    (h2 : posListNode.text = some t) (h3 : ¬ t = "")
    (h4 : floatList (pySplit t) = .ok raw)
    (h5 : 1 < (chunked raw 3).length)
    (h6 : vertEq ((chunked raw 3).headD []) ((chunked raw 3).getLastD []) = true) :
    parse_linear_ring ring = .ok ((chunked raw 3).dropLast) := by
  unfold parse_linear_ring
  rw [h1]
  dsimp only
  rw [h2]
  dsimp only
  rw [if_neg h3, h4]
  dsimp only
  have hcond : (decide (1 < (chunked raw 3).length) &&
      vertEq ((chunked raw 3).headD []) ((chunked raw 3).getLastD [])) = true := by
    rw [h6, decide_eq_true h5]
    rfl
  rw [if_pos hcond]

/-- Witness for (amended) C3: a closed four-tuple ring loses exactly its last
tuple. -/
theorem claim3_witness :
    parse_linear_ring cxRingClosed =
      .ok ((chunked [fi 1, fi 2, fi 3, fi 4, fi 5, fi 6, fi 7, fi 8, fi 9, fi 1, fi 2, fi 3] 3).dropLast) ∧
    (chunked [fi 1, fi 2, fi 3, fi 4, fi 5, fi 6, fi 7, fi 8, fi 9, fi 1, fi 2, fi 3] 3).dropLast =
      [[fi 1, fi 2, fi 3], [fi 4, fi 5, fi 6], [fi 7, fi 8, fi 9]] :=
  ⟨claim3_amended cxRingClosed (.mk "gml:posList" (some "1 2 3 4 5 6 7 8 9 1 2 3") [])
      "1 2 3 4 5 6 7 8 9 1 2 3"
      [fi 1, fi 2, fi 3, fi 4, fi 5, fi 6, fi 7, fi 8, fi 9, fi 1, fi 2, fi 3]
      rfl rfl (by decide) (by decide) (by decide) (by decide),
   by decide⟩

/-! ### Claim C10: leftover tokens when the count is not a multiple of 3 -/

theorem chunkedGo_fuel (size : Nat) (hs : 0 < size) :
    ∀ (f1 : Nat) (l : List PyFloat) (f2 : Nat), l.length ≤ f1 → l.length ≤ f2 →
    chunkedGo size f1 l = chunkedGo size f2 l := by
  intro f1
  induction f1 with
  | zero =>
    intro l f2 h1 _
    have hnil : l = [] := List.length_eq_zero.mp (Nat.le_zero.mp h1)
    subst hnil
    cases f2 <;> rfl
  | succ g1 ih =>
    intro l f2 h1 h2
    cases l with
    | nil => cases f2 <;> rfl
    | cons x xs =>
      cases f2 with
      | zero => simp at h2
      | succ g2 =>
        simp only [chunkedGo]
        congr 1
        apply ih
        · rw [List.length_drop]
          simp only [List.length_cons] at h1 ⊢
          omega
        · rw [List.length_drop]
          simp only [List.length_cons] at h2 ⊢
          omega

theorem chunked3_cons (a b c : PyFloat) (l : List PyFloat) :
    chunked (a :: b :: c :: l) 3 = [a, b, c] :: chunked l 3 := by
  have h1 : chunked (a :: b :: c :: l) 3 = [a, b, c] :: chunkedGo 3 (l.length + 1 + 1) l := rfl
  rw [h1]
  congr 1
  rw [show chunked l 3 = chunkedGo 3 l.length l from rfl]
  exact chunkedGo_fuel 3 (by decide) (l.length + 1 + 1) l l.length (by omega) (le_refl _)

theorem chunked3_shape : ∀ (n : Nat) (l : List PyFloat), l.length = n → l ≠ [] →
    chunked l 3 ≠ [] ∧
    (∀ c ∈ (chunked l 3).dropLast, c.length = 3) ∧
    ((chunked l 3).getLastD []).length = (if l.length % 3 = 0 then 3 else l.length % 3) ∧
    (l.length % 3 ≠ 0 → (chunked l 3).getLastD [] = l.drop (3 * (l.length / 3))) := by
  intro n
  induction n using Nat.strong_induction_on with
  | _ n ih =>
    intro l hl hne
    cases l with
    | nil => exact absurd rfl hne
    | cons a t1 =>
      cases t1 with
      | nil =>
        have hc : chunked [a] 3 = [[a]] := rfl
        refine ⟨by rw [hc]; simp, by rw [hc]; simp, by rw [hc]; norm_num, ?_⟩
        intro _
        rw [hc]
        norm_num
      | cons b t2 =>
        cases t2 with
        | nil =>
          have hc : chunked [a, b] 3 = [[a, b]] := rfl
          refine ⟨by rw [hc]; simp, by rw [hc]; simp, by rw [hc]; norm_num, ?_⟩
          intro _
          rw [hc]
          norm_num
        | cons c l2 =>
          cases l2 with
          | nil =>
            have hc : chunked [a, b, c] 3 = [[a, b, c]] := rfl
            refine ⟨by rw [hc]; simp, by rw [hc]; simp, by rw [hc]; norm_num, ?_⟩
            intro hmod
            exact absurd (by norm_num) hmod
          | cons d l3 =>
            have hlen : (d :: l3).length < n := by
              subst hl
              simp only [List.length_cons]
              omega
            obtain ⟨ih1, ih2, ih3, ih4⟩ :=
              ih (d :: l3).length hlen (d :: l3) rfl (by simp)
            rw [chunked3_cons]
            cases hcl : chunked (d :: l3) 3 with
            | nil => exact absurd hcl ih1
            | cons e es =>
              rw [hcl] at ih2 ih3 ih4
              have hmod : (a :: b :: c :: d :: l3).length % 3 = (d :: l3).length % 3 := by
                simp only [List.length_cons]
                omega
              have hdiv : (a :: b :: c :: d :: l3).length / 3 = (d :: l3).length / 3 + 1 := by
                simp only [List.length_cons]
                omega
              refine ⟨by simp, ?_, ?_, ?_⟩
              · intro v hv
                simp only [List.dropLast_cons₂, List.mem_cons] at hv
                cases hv with
                | inl hva => rw [hva]; rfl
                | inr hvb => exact ih2 v hvb
              · rw [show ([a, b, c] :: e :: es).getLastD [] = (e :: es).getLastD [] from rfl]
                rw [ih3, hmod]
              · intro hm
                rw [hmod] at hm
                rw [show ([a, b, c] :: e :: es).getLastD [] = (e :: es).getLastD [] from rfl]
                rw [ih4 hm, hdiv]
                rw [show 3 * ((d :: l3).length / 3 + 1) = 3 * ((d :: l3).length / 3) + 3 by ring]
                rfl

theorem vertEq_lengths : ∀ (u v : Vert), vertEq u v = true → u.length = v.length := by
  intro u
  induction u with
  | nil =>
    intro v h
    cases v with
    | nil => rfl
    | cons y ys => simp [vertEq] at h
  | cons x xs ih =>
    intro v h
    cases v with
    | nil => simp [vertEq] at h
    | cons y ys =>
      simp only [vertEq, Bool.and_eq_true] at h
      simp only [List.length_cons, ih ys h.2]

theorem headD_mem_dropLast : ∀ (l : List Vert), 1 < l.length → l.headD [] ∈ l.dropLast := by
  intro l hl
  cases l with
  | nil => simp at hl
  | cons x t =>
    cases t with
    | nil => simp at hl
    | cons y ys => simp [List.dropLast_cons₂]

theorem getLastD_mem : ∀ (l : List Vert), l ≠ [] → l.getLastD [] ∈ l := by
  intro l
  induction l with
  | nil => intro h; exact absurd rfl h
  | cons x t ih =>
    intro _
    cases t with
    | nil => simp
    | cons y ys =>
      have := ih (by simp)
      rw [show (x :: y :: ys).getLastD [] = (y :: ys).getLastD [] from rfl]
      exact List.mem_cons_of_mem x this

/-- Claim C10: when the token count of a ring's coordinate list is not a
multiple of 3 (and all tokens decode), parsing raises no error; the returned
ring ends in one incomplete tuple holding exactly the leftover tokens, every
earlier element is a full 3-tuple, and the ring violates the downstream
3-components-per-vertex precondition. -/
theorem claim10_leftover (ring posListNode : Node) (t : String) (raw : List PyFloat)
    (h1 : find1 ring "gml:posList" = some posListNode)
    (h2 : posListNode.text = some t) (h3 : ¬ t = "")
    (h4 : floatList (pySplit t) = .ok raw)
    (h5 : raw.length % 3 ≠ 0) :
    parse_linear_ring ring = .ok (chunked raw 3) ∧
    chunked raw 3 ≠ [] ∧
    ((chunked raw 3).getLastD []).length = raw.length % 3 ∧
    ((chunked raw 3).getLastD []).length < 3 ∧
    (chunked raw 3).getLastD [] = raw.drop (3 * (raw.length / 3)) ∧
    (∀ c ∈ (chunked raw 3).dropLast, c.length = 3) ∧
    ¬ (∀ c ∈ chunked raw 3, c.length = 3) := by
  have hraw : raw ≠ [] := by
    intro hr
    rw [hr] at h5
    exact h5 rfl
  obtain ⟨s1, s2, s3, s4⟩ := chunked3_shape raw.length raw rfl hraw
  have hlast_len : ((chunked raw 3).getLastD []).length = raw.length % 3 := by
    rw [s3, if_neg h5]
  have hmod_lt : raw.length % 3 < 3 := Nat.mod_lt _ (by decide)
  have hcond : (decide (1 < (chunked raw 3).length) &&
      vertEq ((chunked raw 3).headD []) ((chunked raw 3).getLastD [])) = false := by
    by_cases hlen : 1 < (chunked raw 3).length
    · cases hveq : vertEq ((chunked raw 3).headD []) ((chunked raw 3).getLastD []) with
      | false => simp [hveq]
      | true =>
        have hlens := vertEq_lengths _ _ hveq
        have hhead3 := s2 _ (headD_mem_dropLast (chunked raw 3) hlen)
        rw [hhead3, hlast_len] at hlens
        omega
    · simp [hlen]
  have hparse : parse_linear_ring ring = .ok (chunked raw 3) := by
    unfold parse_linear_ring
    rw [h1]
    dsimp only
    rw [h2]
    dsimp only
    rw [if_neg h3, h4]
    dsimp only
    rw [if_neg (show ¬ ((decide (1 < (chunked raw 3).length) &&
      vertEq ((chunked raw 3).headD []) ((chunked raw 3).getLastD [])) = true) from by
        rw [hcond]
        simp)]
  refine ⟨hparse, s1, hlast_len, by omega, s4 h5, s2, ?_⟩
  intro hall
  have := hall _ (getLastD_mem (chunked raw 3) s1)
  rw [hlast_len] at this
  omega

/-- Witness for C10: four tokens decode to one full triple followed by the
leftover singleton, with no error. -/
theorem claim10_witness :
    parse_linear_ring cxRingFour = .ok (chunked [fi 1, fi 2, fi 3, fi 4] 3) ∧
    chunked [fi 1, fi 2, fi 3, fi 4] 3 = [[fi 1, fi 2, fi 3], [fi 4]] :=
  ⟨(claim10_leftover cxRingFour (.mk "gml:posList" (some "1 2 3 4") []) "1 2 3 4"
      [fi 1, fi 2, fi 3, fi 4] rfl rfl (by decide) (by decide) (by decide)).1,
   by decide⟩

/-! ### Claim C1: which tokens make ring parsing fail -/

theorem floatList_ok_iff : ∀ (toks : List String),
    exceptOk (floatList toks) = !(toks.any (fun tok => (pyFloatOfString tok).isNone)) := by
  intro toks
  induction toks with
  | nil => rfl
  | cons t ts ih =>
    cases ht : pyFloatOfString t with
    | none => simp [floatList, ht, exceptOk]
    | some v =>
      cases hts : floatList ts with
      | ok vs =>
        rw [hts] at ih
        simp [floatList, ht, hts, exceptOk] at ih ⊢
        exact ih
      | error e =>
        rw [hts] at ih
        simp [floatList, ht, hts, exceptOk] at ih ⊢
        exact ih

theorem fileLoop_ok_extract : ∀ (files : List (String × Node)) (A : List Tri)
    (L O : List PyFloat) (res : List Tri × List PyFloat × List PyFloat),
    fileLoop files A L O = .ok res →
    ∀ f ∈ files, exceptOk (extract_triangles f.2) = true := by
  intro files
  induction files with
  | nil => intro A L O res _ f hf; exact absurd hf (by simp)
  | cons g gs ih =>
    intro A L O res h f hf
    obtain ⟨name, doc⟩ := g
    cases he : extract_triangles doc with
    | error e =>
      rw [show fileLoop ((name, doc) :: gs) A L O =
        (match extract_triangles doc with
         | .error e => .error e
         | .ok triangles =>
           if triangles = [] then fileLoop gs A L O
           else
             match collectTriangles triangles L O with
             | .error e => .error e
             | .ok (lats2, lons2) => fileLoop gs (A ++ triangles) lats2 lons2) from rfl,
        he] at h
      cases h
    | ok ts =>
      rcases List.mem_cons.mp hf with hfh | hft
      · rw [hfh]
        simp [he, exceptOk]
      · rw [show fileLoop ((name, doc) :: gs) A L O =
          (match extract_triangles doc with
           | .error e => .error e
           | .ok triangles =>
             if triangles = [] then fileLoop gs A L O
             else
               match collectTriangles triangles L O with
               | .error e => .error e
               | .ok (lats2, lons2) => fileLoop gs (A ++ triangles) lats2 lons2) from rfl,
          he] at h
        dsimp only at h
        by_cases hts : ts = []
        · rw [if_pos hts] at h
          exact ih A L O res h f hft
        · rw [if_neg hts] at h
          cases hc : collectTriangles ts L O with
          | error e => rw [hc] at h; cases h
          | ok p =>
            rw [hc] at h
            obtain ⟨lats2, lons2⟩ := p
            exact ih (A ++ ts) lats2 lons2 res h f hft

/-- Claim C1 amended: ring parsing fails (with the `ValueError` of the first
bad token) exactly when some token of the coordinate list is rejected by
Python `float` conversion; the tokens `NaN`, `inf` and `Infinity` (any case,
optionally signed) are accepted by `float` and therefore do NOT abort the
run.  Any run that produced an output record had no failing extraction: a
parse failure aborts before any output is written. -/
theorem claim1_amended :
    (∀ ring : Node, parseFails ring = hasBadToken ring) ∧
    (∀ (files : List (String × Node)) (d2m : PyFloat → PyFloat × PyFloat) (out : Output),
      mainConvert files d2m = .ok out →
      ∀ f ∈ files, exceptOk (extract_triangles f.2) = true) := by
  constructor
  · intro ring
    unfold parseFails hasBadToken parse_linear_ring
    cases find1 ring "gml:posList" with
    | none => rfl
    | some posListNode =>
      dsimp only
      cases posListNode.text with
      | none => rfl
      | some t =>
        dsimp only
        by_cases ht : t = ""
        · rw [if_pos ht]
          subst ht
          rfl
        · rw [if_neg ht]
          have hbeq : (t == "") = false := by
            simp [ht]
          rw [hbeq]
          cases hfl : floatList (pySplit t) with
          | error e =>
            have := floatList_ok_iff (pySplit t)
            rw [hfl] at this
            simp [exceptOk] at this
            simp [exceptOk, this]
          | ok raw =>
            have := floatList_ok_iff (pySplit t)
            rw [hfl] at this
            simp [exceptOk] at this
            simp [exceptOk]
            exact this
  · intro files d2m out h f hf
    cases hloop : fileLoop files [] [] [] with
    | error e =>
      unfold mainConvert at h
      rw [hloop] at h
      cases h
    | ok res => exact fileLoop_ok_extract files [] [] [] res hloop f hf

/-- Counterexample to claim C1 as stated: the spec asserts that the token
`NaN` is not a valid float literal and must raise a `ParseError`, but CPython
`float("NaN")` succeeds, so the ring parses without error and a `nan`
coordinate enters the pipeline. -/
theorem claim1_counterexample :
    pyFloatOfString "NaN" = some .nan ∧
    parse_linear_ring cxRingNan = .ok [[.nan, fi 0, fi 1]] ∧
    parseFails cxRingNan = false :=
  ⟨by decide, by decide, by decide⟩

/-- Witness for (amended) C1: a genuinely non-numeric token makes parsing
fail, and a run that produced output had only succeeding extractions. -/
theorem claim1_witness :
    parseFails cxRingBad = true ∧ exceptOk (extract_triangles cxTriDoc) = true := by
  constructor
  · rw [claim1_amended.1 cxRingBad]
    decide
  · exact claim1_amended.2 cxFiles cxD2M cxOut (by decide) ("b.gml", cxTriDoc)
      (List.mem_cons_of_mem _ (List.mem_cons_self _ _))

/-! ### Claim C7: projection of a vertex at the origin -/

/-- Counterexample to claim C7 as stated over all reachable origins: when the
chosen origin is `nan` (which a `NaN` coordinate token produces, since the
origin is the mean of the samples), the vertex at the origin projects to
`(nan, h, nan)`, which is not equal — not even under Python float equality —
to `(0, h, 0)`. -/
theorem claim7_counterexample :
    (projectVertex .nan .nan (fi 1) (fi 1) .nan .nan (fi 5)).1 = .nan ∧
    (projectVertex .nan .nan (fi 1) (fi 1) .nan .nan (fi 5)).2.2 = .nan ∧
    pyEq (projectVertex .nan .nan (fi 1) (fi 1) .nan .nan (fi 5)).1 (fi 0) = false ∧
    pyEq (projectVertex .nan .nan (fi 1) (fi 1) .nan .nan (fi 5)).2.2 (fi 0) = false := by
  decide

/-- Claim C7 amended: for every finite origin and finite scale factors, and
every height `h`, the vertex exactly at the origin projects to `(0, h, 0)`:
the x and z components are float-equal to `0` and the y component is exactly
`h`. -/
theorem claim7_origin_projection (p q s r : PyRat) (h : PyFloat) :
    pyEq (projectVertex (.fin p) (.fin q) (.fin s) (.fin r) (.fin p) (.fin q) h).1 (fi 0) = true ∧
    (projectVertex (.fin p) (.fin q) (.fin s) (.fin r) (.fin p) (.fin q) h).2.1 = h ∧
    pyEq (projectVertex (.fin p) (.fin q) (.fin s) (.fin r) (.fin p) (.fin q) h).2.2 (fi 0) = true := by
  refine ⟨?_, rfl, ?_⟩
  · show PyRat.eq ((q.sub q).mul r) (fr 0 0) = true
    simp [PyRat.eq, PyRat.sub, PyRat.mul, fr, sub_self]
  · show PyRat.eq (((p.sub p).neg).mul s) (fr 0 0) = true
    simp [PyRat.eq, PyRat.sub, PyRat.mul, PyRat.neg, fr, sub_self]

/-! ### Claim C6: the origin is the arithmetic mean of the collected samples -/

theorem collectTri_ok : ∀ (tri : List Vert) (L O L2 O2 : List PyFloat),
    collectTri tri L O = .ok (L2, O2) →
    L2 = L ++ tri.map (fun v => v.headD .nan) ∧
    O2 = O ++ tri.map (fun v => (v.drop 1).headD .nan) := by
  intro tri
  induction tri with
  | nil =>
    intro L O L2 O2 h
    cases h
    simp
  | cons v vs ih =>
    intro L O L2 O2 h
    rcases v with _ | ⟨a, _ | ⟨b, _ | ⟨c, _ | ⟨d, t⟩⟩⟩⟩
    · cases h
    · cases h
    · cases h
    · have h2 : collectTri vs (L ++ [a]) (O ++ [b]) = .ok (L2, O2) := h
      obtain ⟨ih1, ih2⟩ := ih (L ++ [a]) (O ++ [b]) L2 O2 h2
      constructor
      · rw [ih1]
        simp
      · rw [ih2]
        simp
    · cases h

theorem collectTriangles_ok : ∀ (ts : List Tri) (L O L2 O2 : List PyFloat),
    collectTriangles ts L O = .ok (L2, O2) →
    L2 = L ++ specLats ts ∧ O2 = O ++ specLons ts := by
  intro ts
  induction ts with
  | nil =>
    intro L O L2 O2 h
    cases h
    simp [specLats, specLons]
  | cons tri rest ih =>
    intro L O L2 O2 h
    unfold collectTriangles at h
    cases hc : collectTri tri L O with
    | error e => rw [hc] at h; cases h
    | ok p =>
      rw [hc] at h
      obtain ⟨La, Oa⟩ := p
      obtain ⟨ha1, ha2⟩ := collectTri_ok tri L O La Oa hc
      obtain ⟨hb1, hb2⟩ := ih La Oa L2 O2 h
      constructor
      · rw [hb1, ha1]
        simp [specLats]
      · rw [hb2, ha2]
        simp [specLons]

theorem specLats_append (l1 l2 : List Tri) :
    specLats (l1 ++ l2) = specLats l1 ++ specLats l2 := by
  simp [specLats]

theorem specLons_append (l1 l2 : List Tri) :
    specLons (l1 ++ l2) = specLons l1 ++ specLons l2 := by
  simp [specLons]

theorem fileLoop_char : ∀ (files : List (String × Node)) (A : List Tri)
    (L O : List PyFloat) (res : List Tri × List PyFloat × List PyFloat)
    (tss : List (List Tri)),
    extractAll files = .ok tss →
    fileLoop files A L O = .ok res →
    res.1 = A ++ tss.flatMap id ∧
    res.2.1 = L ++ specLats (tss.flatMap id) ∧
    res.2.2 = O ++ specLons (tss.flatMap id) := by
  intro files
  induction files with
  | nil =>
    intro A L O res tss hx hm
    cases hx
    cases hm
    simp [specLats, specLons]
  | cons g gs ih =>
    intro A L O res tss hx hm
    obtain ⟨name, doc⟩ := g
    unfold extractAll at hx
    unfold fileLoop at hm
    cases he : extract_triangles doc with
    | error e => rw [he] at hx; cases hx
    | ok ts =>
      rw [he] at hx hm
      dsimp only at hx hm
      cases hrest : extractAll gs with
      | error e => rw [hrest] at hx; cases hx
      | ok rest2 =>
        rw [hrest] at hx
        cases hx
        by_cases hts : ts = []
        · rw [if_pos hts] at hm
          obtain ⟨c1, c2, c3⟩ := ih A L O res rest2 hrest hm
          subst hts
          refine ⟨?_, ?_, ?_⟩
          · rw [c1]
            simp
          · rw [c2]
            simp
          · rw [c3]
            simp
        · rw [if_neg hts] at hm
          cases hcol : collectTriangles ts L O with
          | error e => rw [hcol] at hm; cases hm
          | ok p =>
            rw [hcol] at hm
            obtain ⟨L2, O2⟩ := p
            obtain ⟨hc1, hc2⟩ := collectTriangles_ok ts L O L2 O2 hcol
            obtain ⟨d1, d2, d3⟩ := ih (A ++ ts) L2 O2 res rest2 hrest hm
            refine ⟨?_, ?_, ?_⟩
            · rw [d1]
              simp
            · rw [d2, hc1]
              simp [specLats_append]
            · rw [d3, hc2]
              simp [specLons_append]

/-- Claim C6: the reported origin of any successful run is the arithmetic
mean — sum divided by count, with no outlier rejection — of the latitude and
longitude samples taken from every vertex of every extracted triangle across
all contributing files, in processing order. -/
theorem claim6_origin_mean (files : List (String × Node))
    (d2m : PyFloat → PyFloat × PyFloat) (tss : List (List Tri)) (out : Output)
    (hx : extractAll files = .ok tss)
    (hm : mainConvert files d2m = .ok out) :
    out.origin_lat =
      pyDivNat (pySum (specLats (tss.flatMap id))) ((specLats (tss.flatMap id)).length) ∧
    out.origin_lon =
      pyDivNat (pySum (specLons (tss.flatMap id))) ((specLons (tss.flatMap id)).length) := by
  unfold mainConvert at hm
  cases hloop : fileLoop files [] [] [] with
  | error e => rw [hloop] at hm; cases hm
  | ok res =>
    rw [hloop] at hm
    obtain ⟨A, L, O⟩ := res
    obtain ⟨c1, c2, c3⟩ := fileLoop_char files [] [] [] (A, L, O) tss hx hloop
    simp only [List.nil_append] at c1 c2 c3
    dsimp only at hm c2 c3
    by_cases hA : A = []
    · rw [if_pos hA] at hm; cases hm
    · rw [if_neg hA] at hm
      cases hc : convert_coordinates A (pyDivNat (pySum L) L.length)
          (pyDivNat (pySum O) O.length) d2m with
      | error e => rw [hc] at hm; cases hm
      | ok cb =>
        rw [hc] at hm
        obtain ⟨conv, b⟩ := cb
        dsimp only at hm
        cases hm
        exact ⟨by rw [c2], by rw [c3]⟩

/-- The per-file extraction results of the `cxFiles` run: `a.gml` contributes
nothing, `b.gml` one triangle. -/
def cxTss : List (List Tri) :=
  [[], [[[fi 0, fi 0, fi 0], [fi 1, fi 0, fi 0], [fi 0, fi 1, fi 0]]]]

/-- Witness for C6: in the concrete two-file run the reported origin equals
the mean of the three collected samples. -/
theorem claim6_witness :
    cxOut.origin_lat =
      pyDivNat (pySum (specLats (cxTss.flatMap id))) ((specLats (cxTss.flatMap id)).length) ∧
    cxOut.origin_lon =
      pyDivNat (pySum (specLons (cxTss.flatMap id))) ((specLons (cxTss.flatMap id)).length) :=
  claim6_origin_mean cxFiles cxD2M cxTss cxOut (by decide) (by decide)

/-! ### Claim C8: bounding-box correctness -/

/-- A float is finite (neither `nan` nor an infinity). -/
def isFin (x : PyFloat) : Prop := ∃ q, x = PyFloat.fin q

theorem PyRat.lt_iff (x y : PyRat) : x.lt y = true ↔ x.toQ < y.toQ := by
  rw [PyRat.lt, decide_eq_true_eq, PyRat.toQ, PyRat.toQ,
    div_lt_div_iff₀ (by exact_mod_cast x.dpos) (by exact_mod_cast y.dpos)]
  constructor
  · intro h
    exact_mod_cast h
  · intro h
    exact_mod_cast h

theorem PyRat.eq_iff (x y : PyRat) : x.eq y = true ↔ x.toQ = y.toQ := by
  rw [PyRat.eq, decide_eq_true_eq, PyRat.toQ, PyRat.toQ,
    div_eq_div_iff
      (show ((x.den : ℚ)) ≠ 0 by
        intro h0
        rw [Nat.cast_eq_zero] at h0
        have hp := x.dpos
        omega)
      (show ((y.den : ℚ)) ≠ 0 by
        intro h0
        rw [Nat.cast_eq_zero] at h0
        have hp := y.dpos
        omega)]
  constructor
  · intro h
    exact_mod_cast h
  · intro h
    exact_mod_cast h

theorem pyLe_fin_iff (x y : PyRat) : pyLe (.fin x) (.fin y) = true ↔ x.toQ ≤ y.toQ := by
  rw [pyLe, show pyLt (.fin x) (.fin y) = x.lt y from rfl,
    show pyEq (.fin x) (.fin y) = x.eq y from rfl, Bool.or_eq_true,
    PyRat.lt_iff, PyRat.eq_iff, le_iff_lt_or_eq]

theorem pyLe_refl_fin (a : PyFloat) (ha : isFin a) : pyLe a a = true := by
  obtain ⟨q, rfl⟩ := ha
  rw [pyLe_fin_iff]

theorem pyLe_trans_fin (a b c : PyFloat) (ha : isFin a) (hb : isFin b) (hc : isFin c)
    (h1 : pyLe a b = true) (h2 : pyLe b c = true) : pyLe a c = true := by
  obtain ⟨qa, rfl⟩ := ha
  obtain ⟨qb, rfl⟩ := hb
  obtain ⟨qc, rfl⟩ := hc
  rw [pyLe_fin_iff] at h1 h2 ⊢
  exact le_trans h1 h2

theorem pyMin_fin (a x : PyRat) :
    (pyMin (.fin a) (.fin x) = .fin a ∨ pyMin (.fin a) (.fin x) = .fin x) ∧
    pyLe (pyMin (.fin a) (.fin x)) (.fin a) = true ∧
    pyLe (pyMin (.fin a) (.fin x)) (.fin x) = true := by
  rw [pyMin, show pyLt (.fin x) (.fin a) = x.lt a from rfl]
  by_cases h : x.lt a = true
  · rw [if_pos h]
    rw [PyRat.lt_iff] at h
    exact ⟨Or.inr rfl, by rw [pyLe_fin_iff]; exact le_of_lt h, by rw [pyLe_fin_iff]⟩
  · rw [if_neg h]
    have h2 : ¬ x.toQ < a.toQ := by
      rw [← PyRat.lt_iff]
      exact h
    exact ⟨Or.inl rfl, by rw [pyLe_fin_iff], by rw [pyLe_fin_iff]; exact le_of_not_lt h2⟩

theorem pyMax_fin (a x : PyRat) :
    (pyMax (.fin a) (.fin x) = .fin a ∨ pyMax (.fin a) (.fin x) = .fin x) ∧
    pyLe (.fin a) (pyMax (.fin a) (.fin x)) = true ∧
    pyLe (.fin x) (pyMax (.fin a) (.fin x)) = true := by
  rw [pyMax, show pyLt (.fin a) (.fin x) = a.lt x from rfl]
  by_cases h : a.lt x = true
  · rw [if_pos h]
    rw [PyRat.lt_iff] at h
    exact ⟨Or.inr rfl, by rw [pyLe_fin_iff]; exact le_of_lt h, by rw [pyLe_fin_iff]⟩
  · rw [if_neg h]
    have h2 : ¬ a.toQ < x.toQ := by
      rw [← PyRat.lt_iff]
      exact h
    exact ⟨Or.inl rfl, by rw [pyLe_fin_iff], by rw [pyLe_fin_iff]; exact le_of_not_lt h2⟩

theorem foldl_pyMin_finite : ∀ (xs : List PyFloat) (a : PyFloat),
    (∀ x ∈ xs, isFin x) → isFin a →
    (xs.foldl pyMin a ∈ a :: xs) ∧ (∀ x ∈ a :: xs, pyLe (xs.foldl pyMin a) x = true) := by
  intro xs
  induction xs with
  | nil =>
    intro a _ ha
    refine ⟨by simp, ?_⟩
    intro x hx
    rw [List.mem_singleton] at hx
    rw [hx]
    exact pyLe_refl_fin a ha
  | cons x xs ih =>
    intro a hxs ha
    obtain ⟨qa, rfl⟩ := ha
    obtain ⟨qx, hqx⟩ := hxs x (by simp)
    subst hqx
    have hmin := pyMin_fin qa qx
    have hminfin : isFin (pyMin (.fin qa) (.fin qx)) := by
      rcases hmin.1 with h | h <;> rw [h] <;> exact ⟨_, rfl⟩
    obtain ⟨ihmem, ihle⟩ := ih (pyMin (.fin qa) (.fin qx))
      (fun y hy => hxs y (by simp [hy])) hminfin
    have hfoldfin : isFin (xs.foldl pyMin (pyMin (.fin qa) (.fin qx))) := by
      rcases List.mem_cons.mp ihmem with h | h
      · rw [h]
        exact hminfin
      · exact hxs _ (by simp [h])
    constructor
    · rw [List.foldl_cons]
      rcases List.mem_cons.mp ihmem with h | h
      · rcases hmin.1 with h2 | h2 <;> rw [h, h2] <;> simp
      · simp [h]
    · intro y hy
      rw [List.foldl_cons]
      have hle_min : pyLe (xs.foldl pyMin (pyMin (.fin qa) (.fin qx)))
          (pyMin (.fin qa) (.fin qx)) = true := ihle _ (by simp)
      rcases List.mem_cons.mp hy with h | h
      · rw [h]
        exact pyLe_trans_fin _ _ _ hfoldfin hminfin ⟨_, rfl⟩ hle_min hmin.2.1
      · rcases List.mem_cons.mp h with h2 | h2
        · rw [h2]
          exact pyLe_trans_fin _ _ _ hfoldfin hminfin ⟨_, rfl⟩ hle_min hmin.2.2
        · exact ihle y (by simp [h2])

theorem foldl_pyMax_finite : ∀ (xs : List PyFloat) (a : PyFloat),
    (∀ x ∈ xs, isFin x) → isFin a →
    (xs.foldl pyMax a ∈ a :: xs) ∧ (∀ x ∈ a :: xs, pyLe x (xs.foldl pyMax a) = true) := by
  intro xs
  induction xs with
  | nil =>
    intro a _ ha
    refine ⟨by simp, ?_⟩
    intro x hx
    rw [List.mem_singleton] at hx
    rw [hx]
    exact pyLe_refl_fin a ha
  | cons x xs ih =>
    intro a hxs ha
    obtain ⟨qa, rfl⟩ := ha
    obtain ⟨qx, hqx⟩ := hxs x (by simp)
    subst hqx
    have hmax := pyMax_fin qa qx
    have hmaxfin : isFin (pyMax (.fin qa) (.fin qx)) := by
      rcases hmax.1 with h | h <;> rw [h] <;> exact ⟨_, rfl⟩
    obtain ⟨ihmem, ihle⟩ := ih (pyMax (.fin qa) (.fin qx))
      (fun y hy => hxs y (by simp [hy])) hmaxfin
    have hfoldfin : isFin (xs.foldl pyMax (pyMax (.fin qa) (.fin qx))) := by
      rcases List.mem_cons.mp ihmem with h | h
      · rw [h]
        exact hmaxfin
      · exact hxs _ (by simp [h])
    constructor
    · rw [List.foldl_cons]
      rcases List.mem_cons.mp ihmem with h | h
      · rcases hmax.1 with h2 | h2 <;> rw [h, h2] <;> simp
      · simp [h]
    · intro y hy
      rw [List.foldl_cons]
      have hle_max : pyLe (pyMax (.fin qa) (.fin qx))
          (xs.foldl pyMax (pyMax (.fin qa) (.fin qx))) = true := ihle _ (by simp)
      rcases List.mem_cons.mp hy with h | h
      · rw [h]
        exact pyLe_trans_fin _ _ _ ⟨_, rfl⟩ hmaxfin hfoldfin hmax.2.1 hle_max
      · rcases List.mem_cons.mp h with h2 | h2
        · rw [h2]
          exact pyLe_trans_fin _ _ _ ⟨_, rfl⟩ hmaxfin hfoldfin hmax.2.2 hle_max
        · exact ihle y (by simp [h2])

theorem convTriAux_char (lat0 lon0 latS lonS : PyFloat) : ∀ (vs : List Vert)
    (flat : List PyFloat) (b : Bounds) (flat2 : List PyFloat) (b2 : Bounds),
    convTriAux lat0 lon0 latS lonS vs flat b = .ok (flat2, b2) →
    b2 = vs.foldl (fun bb v => updBounds bb (projV lat0 lon0 latS lonS v)) b := by
  intro vs
  induction vs with
  | nil =>
    intro flat b flat2 b2 h
    cases h
    rfl
  | cons v vs ih =>
    intro flat b flat2 b2 h
    rcases v with _ | ⟨a1, _ | ⟨a2, _ | ⟨a3, _ | ⟨a4, t⟩⟩⟩⟩
    · cases h
    · cases h
    · cases h
    · rw [List.foldl_cons]
      exact ih _ _ _ _ h
    · cases h

theorem convLoop_char (lat0 lon0 latS lonS : PyFloat) : ∀ (ts : List Tri)
    (conv : List (List PyFloat)) (b : Bounds) (conv2 : List (List PyFloat)) (b2 : Bounds),
    convLoop lat0 lon0 latS lonS ts conv b = .ok (conv2, b2) →
    b2 = (ts.flatMap id).foldl
      (fun bb v => updBounds bb (projV lat0 lon0 latS lonS v)) b := by
  intro ts
  induction ts with
  | nil =>
    intro conv b conv2 b2 h
    cases h
    rfl
  | cons tri rest ih =>
    intro conv b conv2 b2 h
    unfold convLoop at h
    cases hta : convTriAux lat0 lon0 latS lonS tri [] b with
    | error e => rw [hta] at h; cases h
    | ok p =>
      rw [hta] at h
      obtain ⟨flat, bmid⟩ := p
      have hmid := convTriAux_char lat0 lon0 latS lonS tri [] b flat bmid hta
      have hrest := ih (conv ++ [flat]) bmid conv2 b2 h
      rw [hrest, hmid]
      simp [List.foldl_append]

theorem foldl_updBounds (lat0 lon0 latS lonS : PyFloat) : ∀ (vs : List Vert) (b : Bounds),
    vs.foldl (fun bb v => updBounds bb (projV lat0 lon0 latS lonS v)) b =
      { min_x := (vs.map (fun v => (projV lat0 lon0 latS lonS v).1)).foldl pyMin b.min_x
        min_y := (vs.map (fun v => (projV lat0 lon0 latS lonS v).2.1)).foldl pyMin b.min_y
        min_z := (vs.map (fun v => (projV lat0 lon0 latS lonS v).2.2)).foldl pyMin b.min_z
        max_x := (vs.map (fun v => (projV lat0 lon0 latS lonS v).1)).foldl pyMax b.max_x
        max_y := (vs.map (fun v => (projV lat0 lon0 latS lonS v).2.1)).foldl pyMax b.max_y
        max_z := (vs.map (fun v => (projV lat0 lon0 latS lonS v).2.2)).foldl pyMax b.max_z } := by
  intro vs
  induction vs with
  | nil =>
    intro b
    cases b
    rfl
  | cons v vs ih =>
    intro b
    rw [List.foldl_cons]
    rw [ih (updBounds b (projV lat0 lon0 latS lonS v))]
    rfl

theorem foldl_pyMin_inf (xs : List PyFloat) (hx : ∀ x ∈ xs, isFin x) (hne : xs ≠ []) :
    (xs.foldl pyMin .inf ∈ xs) ∧ ∀ x ∈ xs, pyLe (xs.foldl pyMin .inf) x = true := by
  cases xs with
  | nil => exact absurd rfl hne
  | cons x xrest =>
    obtain ⟨q, rfl⟩ := hx x (by simp)
    rw [List.foldl_cons, show pyMin PyFloat.inf (.fin q) = .fin q from rfl]
    exact foldl_pyMin_finite xrest (.fin q) (fun y hy => hx y (by simp [hy])) ⟨q, rfl⟩

theorem foldl_pyMax_ninf (xs : List PyFloat) (hx : ∀ x ∈ xs, isFin x) (hne : xs ≠ []) :
    (xs.foldl pyMax .ninf ∈ xs) ∧ ∀ x ∈ xs, pyLe x (xs.foldl pyMax .ninf) = true := by
  cases xs with
  | nil => exact absurd rfl hne
  | cons x xrest =>
    obtain ⟨q, rfl⟩ := hx x (by simp)
    rw [List.foldl_cons, show pyMax PyFloat.ninf (.fin q) = .fin q from rfl]
    exact foldl_pyMax_finite xrest (.fin q) (fun y hy => hx y (by simp [hy])) ⟨q, rfl⟩

/-- Claim C8 amended: for a non-empty aggregate triangle set all of whose
projected coordinates are finite, the bounding box of `convert_coordinates`
bounds every projected vertex coordinate component-wise, and each of the six
min/max components is attained by some projected vertex.  (The finiteness
hypothesis is necessary: see the counterexample with a `nan` coordinate.) -/
theorem claim8_bounding_box (ts : List Tri) (lat0 lon0 : PyFloat)
    (d2m : PyFloat → PyFloat × PyFloat) (conv : List (List PyFloat)) (b : Bounds)
    (hok : convert_coordinates ts lat0 lon0 d2m = .ok (conv, b))
    (hne : ts.flatMap id ≠ [])
    (hfin : ∀ v ∈ ts.flatMap id,
      isFin ((projV lat0 lon0 (d2m lat0).1 (d2m lat0).2 v).1) ∧
      isFin ((projV lat0 lon0 (d2m lat0).1 (d2m lat0).2 v).2.1) ∧
      isFin ((projV lat0 lon0 (d2m lat0).1 (d2m lat0).2 v).2.2)) :
    (∀ v ∈ ts.flatMap id,
      (pyLe b.min_x (projV lat0 lon0 (d2m lat0).1 (d2m lat0).2 v).1 = true ∧
       pyLe (projV lat0 lon0 (d2m lat0).1 (d2m lat0).2 v).1 b.max_x = true) ∧
      (pyLe b.min_y (projV lat0 lon0 (d2m lat0).1 (d2m lat0).2 v).2.1 = true ∧
       pyLe (projV lat0 lon0 (d2m lat0).1 (d2m lat0).2 v).2.1 b.max_y = true) ∧
      (pyLe b.min_z (projV lat0 lon0 (d2m lat0).1 (d2m lat0).2 v).2.2 = true ∧
       pyLe (projV lat0 lon0 (d2m lat0).1 (d2m lat0).2 v).2.2 b.max_z = true)) ∧
    (∃ v ∈ ts.flatMap id, (projV lat0 lon0 (d2m lat0).1 (d2m lat0).2 v).1 = b.min_x) ∧
    (∃ v ∈ ts.flatMap id, (projV lat0 lon0 (d2m lat0).1 (d2m lat0).2 v).1 = b.max_x) ∧
    (∃ v ∈ ts.flatMap id, (projV lat0 lon0 (d2m lat0).1 (d2m lat0).2 v).2.1 = b.min_y) ∧
    (∃ v ∈ ts.flatMap id, (projV lat0 lon0 (d2m lat0).1 (d2m lat0).2 v).2.1 = b.max_y) ∧
    (∃ v ∈ ts.flatMap id, (projV lat0 lon0 (d2m lat0).1 (d2m lat0).2 v).2.2 = b.min_z) ∧
    (∃ v ∈ ts.flatMap id, (projV lat0 lon0 (d2m lat0).1 (d2m lat0).2 v).2.2 = b.max_z) := by
  have hb := convLoop_char lat0 lon0 (d2m lat0).1 (d2m lat0).2 ts [] initBounds conv b hok
  rw [foldl_updBounds] at hb
  subst hb
  dsimp only
  have hmapne : ∀ (f : Vert → PyFloat), (ts.flatMap id).map f ≠ [] := by
    intro f hmap
    exact hne (List.map_eq_nil_iff.mp hmap)
  have hx1 : ∀ x ∈ (ts.flatMap id).map (fun v => (projV lat0 lon0 (d2m lat0).1 (d2m lat0).2 v).1), isFin x := by
    intro x hx
    obtain ⟨v, hv, rfl⟩ := List.mem_map.mp hx
    exact (hfin v hv).1
  have hx2 : ∀ x ∈ (ts.flatMap id).map (fun v => (projV lat0 lon0 (d2m lat0).1 (d2m lat0).2 v).2.1), isFin x := by
    intro x hx
    obtain ⟨v, hv, rfl⟩ := List.mem_map.mp hx
    exact (hfin v hv).2.1
  have hx3 : ∀ x ∈ (ts.flatMap id).map (fun v => (projV lat0 lon0 (d2m lat0).1 (d2m lat0).2 v).2.2), isFin x := by
    intro x hx
    obtain ⟨v, hv, rfl⟩ := List.mem_map.mp hx
    exact (hfin v hv).2.2
  obtain ⟨hm1, hl1⟩ := foldl_pyMin_inf _ hx1 (hmapne _)
  obtain ⟨hm2, hl2⟩ := foldl_pyMin_inf _ hx2 (hmapne _)
  obtain ⟨hm3, hl3⟩ := foldl_pyMin_inf _ hx3 (hmapne _)
  obtain ⟨hM1, hL1⟩ := foldl_pyMax_ninf _ hx1 (hmapne _)
  obtain ⟨hM2, hL2⟩ := foldl_pyMax_ninf _ hx2 (hmapne _)
  obtain ⟨hM3, hL3⟩ := foldl_pyMax_ninf _ hx3 (hmapne _)
  refine ⟨?_, ?_, ?_, ?_, ?_, ?_, ?_⟩
  · intro v hv
    exact ⟨⟨hl1 _ (List.mem_map_of_mem _ hv), hL1 _ (List.mem_map_of_mem _ hv)⟩,
           ⟨hl2 _ (List.mem_map_of_mem _ hv), hL2 _ (List.mem_map_of_mem _ hv)⟩,
           ⟨hl3 _ (List.mem_map_of_mem _ hv), hL3 _ (List.mem_map_of_mem _ hv)⟩⟩
  · obtain ⟨v, hv, hveq⟩ := List.mem_map.mp hm1
    exact ⟨v, hv, hveq⟩
  · obtain ⟨v, hv, hveq⟩ := List.mem_map.mp hM1
    exact ⟨v, hv, hveq⟩
  · obtain ⟨v, hv, hveq⟩ := List.mem_map.mp hm2
    exact ⟨v, hv, hveq⟩
  · obtain ⟨v, hv, hveq⟩ := List.mem_map.mp hM2
    exact ⟨v, hv, hveq⟩
  · obtain ⟨v, hv, hveq⟩ := List.mem_map.mp hm3
    exact ⟨v, hv, hveq⟩
  · obtain ⟨v, hv, hveq⟩ := List.mem_map.mp hM3
    exact ⟨v, hv, hveq⟩

/-- One aggregate triangle carrying a `nan` latitude (as produced by a `NaN`
coordinate token, which `float` accepts). -/
def cx8ts : List Tri := [[[.nan, fi 0, fi 0], [fi 1, fi 0, fi 0], [fi 2, fi 0, fi 0]]]

/-- The flattened projection of `cx8ts` at origin `(0, 0)` with unit scales. -/
def cx8conv : List (List PyFloat) :=
  [[fi 0, fi 0, .nan, fi 0, fi 0, .fin (fr (-1) 0), fi 0, fi 0, .fin (fr (-2) 0)]]

/-- The bounding box accumulated for `cx8ts`: the `nan` z-coordinate slips
past both running extrema. -/
def cx8b : Bounds := ⟨fi 0, fi 0, .fin (fr (-2) 0), fi 0, fi 0, .fin (fr (-1) 0)⟩

/-- Counterexample to claim C8 as stated over all runs: with a `nan`
coordinate in the (non-empty) aggregate triangle set, the projected
z-coordinate of the first vertex is `nan`, and neither `min_z <= nan` nor
`nan <= max_z` holds, so the bounding box does not bound every projected
vertex coordinate. -/
theorem claim8_counterexample :
    convert_coordinates cx8ts (fi 0) (fi 0) cxD2M = .ok (cx8conv, cx8b) ∧
    [PyFloat.nan, fi 0, fi 0] ∈ cx8ts.flatMap id ∧
    (projV (fi 0) (fi 0) (cxD2M (fi 0)).1 (cxD2M (fi 0)).2 [PyFloat.nan, fi 0, fi 0]).2.2 =
      .nan ∧
    pyLe cx8b.min_z .nan = false ∧
    pyLe .nan cx8b.max_z = false := by
  decide

/-- The aggregate triangle set of the `cxFiles` run, used to witness C8. -/
def cxW8ts : List Tri := [[[fi 0, fi 0, fi 0], [fi 1, fi 0, fi 0], [fi 0, fi 1, fi 0]]]

/-- Witness for (amended) C8 at the concrete all-finite run: the first
projected vertex is bounded by the computed box in the x component. -/
theorem claim8_witness :
    pyLe cxOut.bounds.min_x
      (projV (.fin (fr 1 2)) (.fin (fr 1 2)) (cxD2M (.fin (fr 1 2))).1
        (cxD2M (.fin (fr 1 2))).2 [fi 0, fi 0, fi 0]).1 = true ∧
    pyLe (projV (.fin (fr 1 2)) (.fin (fr 1 2)) (cxD2M (.fin (fr 1 2))).1
        (cxD2M (.fin (fr 1 2))).2 [fi 0, fi 0, fi 0]).1 cxOut.bounds.max_x = true := by
  have h := claim8_bounding_box cxW8ts (.fin (fr 1 2)) (.fin (fr 1 2)) cxD2M
    cxOut.triangles cxOut.bounds (by decide) (by decide)
    (by
      intro v hv
      fin_cases hv <;> exact ⟨⟨_, rfl⟩, ⟨_, rfl⟩, ⟨_, rfl⟩⟩)
  exact (h.1 [fi 0, fi 0, fi 0] (by decide)).1
